import Mathlib

/-!
Verification of the vectorized numeric engine of `pycosmo2/utils/numeric.py`
(adaptive Simpson integration `integrate1`, Gauss-Kronrod quadrature
`integrate2`, Ridders root finding `solve`).

Modelling conventions.

* numpy floating arithmetic is modelled over `ℚ` (exact arithmetic); `np.sqrt`
  has no rational counterpart, so every definition that needs it takes an
  explicit `sq : ℚ → ℚ` parameter, and theorems that depend on square-root
  facts assume them only at the concrete radicand values actually reached.
* a family of same-shape numpy arrays evolving together is modelled as a
  `List` of per-lane records; every numpy operation in the modelled code is
  elementwise, so each `np.where`/arithmetic line becomes a per-lane function
  mapped over the list, and `np.min(conv)` becomes `List.all`.
* `np.min` of an empty array raises a numpy `ValueError`; this is modelled by
  an explicit empty check (`emptyReduceMsg`) at the same program point.
* Python exceptions are modelled by `Except String`, with the message strings
  of the source; `warnings.warn` does not abort, so it is modelled as an
  `Option String` component of the result.
* integer recursion counters: the source checks `j > bound` at entry and
  recurses with `j+1`, so a run from depth `j` performs at most `bound+1-j`
  iterations; the model recurses structurally on the fuel `bound+1-j` with
  the wrapper translating `j` to fuel, keeping evaluation kernel-reducible.
-/

/-- Message of `IntegrationError` raised at line 107 of numeric.py. -/
def i1MaxMsg : String := "maximum recursions reached without convergence"

/-- Message of `ValueError` raised at line 132 of numeric.py. -/
def i1TolMsg : String := "tolerance must be positive"

/-- Message of `SolverError` raised at line 265 of numeric.py. -/
def solveMaxMsg : String := "root does not converge after maximum iterations"

/-- Message of `SolverError` raised at line 329 of numeric.py. -/
def solveDimMsg : String := "a and b should have same dimension"

/-- Message of `SolverError` raised at line 335 of numeric.py. -/
def solveBracketMsg : String := "interval does not contain a root"

/-- Message of numpy's `ValueError` for an elementwise operation on 1-d arrays
of incompatible lengths. -/
def broadcastMsg : String := "operands could not be broadcast together"

/-- Message of numpy's `ValueError` for `np.min` of an empty array. -/
def emptyReduceMsg : String := "zero-size array to reduction operation minimum"

/-- State of one lane (one array element) of `solve.recurse`: current bracket
endpoints `a`, `b`, the cached function values `fa = f(a)`, `fb = f(b)` and
this lane's entry of the convergence mask. -/
structure SLane where
  a : ℚ
  fa : ℚ
  b : ℚ
  fb : ℚ
  conv : Bool
  deriving DecidableEq

/-- Lines 267-268 of numeric.py: `h = b - a; c = a + h * 0.5`. -/
def slaneC (l : SLane) : ℚ := l.a + (l.b - l.a) * 0.5

/-- Line 270 of numeric.py: `conv = conv | (np.abs(h) < tol)`, one lane. -/
def slaneConv (tol : ℚ) (l : SLane) : SLane :=
  { l with conv := l.conv || decide (|l.b - l.a| < tol) }

/-- Line 274 of numeric.py: `fc = f(c)`, one lane. -/
def slaneFc (f : ℚ → ℚ) (l : SLane) : ℚ := f (slaneC l)

/-- Radicand `fc*fc - fa*fb` of line 276 of numeric.py, one lane. -/
def slaneRad (f : ℚ → ℚ) (l : SLane) : ℚ :=
  slaneFc f l * slaneFc f l - l.fa * l.fb

/-- Line 276 of numeric.py:
`delta = (c - a) * fc / np.sqrt(fc*fc - fa*fb)`, one lane. -/
def slaneDelta (sq f : ℚ → ℚ) (l : SLane) : ℚ :=
  (slaneC l - l.a) * slaneFc f l / sq (slaneRad f l)

/-- Line 277 of numeric.py: `d = np.where(fa < fb, c - delta, c + delta)`. -/
def slaneD (sq f : ℚ → ℚ) (l : SLane) : ℚ :=
  if l.fa < l.fb then slaneC l - slaneDelta sq f l
  else slaneC l + slaneDelta sq f l

/-- Lines 274-324 of numeric.py, one lane: the per-element 4-way `choice`
(0 converged / 1 `fc*fd<0` / 2 `fa*fd<0` / 3 otherwise) and the
`np.where`-chains updating `a, fa, b, fb` accordingly. -/
def slaneStep (sq f : ℚ → ℚ) (l : SLane) : SLane :=
  if l.conv then l
  else
    let c := slaneC l
    let fc := slaneFc f l
    let d := slaneD sq f l
    let fd := f d
    if fc * fd < 0 then ⟨c, fc, d, fd, l.conv⟩
    else if l.fa * fd < 0 then ⟨l.a, l.fa, d, fd, l.conv⟩
    else ⟨d, fd, l.b, l.fb, l.conv⟩

/-- Value returned for a lane at line 272 of numeric.py: the current midpoint
`c` (the source's `return c` reuses the `c` of line 268). -/
def slaneMid (l : SLane) : ℚ := slaneC l

/-- Lines 263-326 of numeric.py, `solve.recurse`, recursing on the fuel
`1001 - j` (the source checks `j > 1000` at entry): update the mask, raise on
an empty reduction, return the midpoints when every lane has converged, else
apply the Ridders update to every lane and recurse. -/
def solveGo (sq f : ℚ → ℚ) (tol : ℚ) : ℕ → List SLane → Except String (List ℚ)
  | 0, _ => .error solveMaxMsg
  | k + 1, st =>
    let stm := st.map (slaneConv tol)
    if stm.isEmpty then .error emptyReduceMsg
    else if stm.all (fun l => l.conv) then .ok (stm.map slaneMid)
    else solveGo sq f tol k (stm.map (slaneStep sq f))

/-- `solve.recurse` called at depth counter `j` (raises once `j > 1000`). -/
def solveRecurse (sq f : ℚ → ℚ) (tol : ℚ) (st : List SLane) (j : ℕ) :
    Except String (List ℚ) :=
  solveGo sq f tol (1001 - j) st

/-- States of `solve.recurse` (after the mask update of line 270) from which
a Ridders step is actually taken, in iteration order; used to phrase
square-root hypotheses only at the radicands a given run really evaluates. -/
def solveStates (sq f : ℚ → ℚ) (tol : ℚ) : ℕ → List SLane → List (List SLane)
  | 0, _ => []
  | k + 1, st =>
    let stm := st.map (slaneConv tol)
    if stm.isEmpty then []
    else if stm.all (fun l => l.conv) then []
    else stm :: solveStates sq f tol k (stm.map (slaneStep sq f))

/-- numpy 1-d broadcasting for a binary elementwise operation: equal lengths
pair off, a length-1 operand is repeated, anything else raises. -/
def broadcast2 (xs ys : List ℚ) : Option (List ℚ × List ℚ) :=
  if xs.length = ys.length then some (xs, ys)
  else if xs.length = 1 then some (List.replicate ys.length xs.headI, ys)
  else if ys.length = 1 then some (xs, List.replicate xs.length ys.headI)
  else none

/-- Lines 331-338 of numeric.py: the body of `solve` after the `np.ndim`
check, for 1-d inputs: evaluate `fa = f(a)`, `fb = f(b)`, raise the
bracketing error when `np.any(fa * fb >= 0)` (the product broadcasting the
two value arrays), else run `recurse` with a fresh all-false mask from
depth 0. -/
def solveMain (sq f : ℚ → ℚ) (tol : ℚ) (a b : List ℚ) :
    Except String (List ℚ) :=
  match broadcast2 a b with
  | none => .error broadcastMsg
  | some (a2, b2) =>
    if (List.zipWith (fun x y => f x * f y) a2 b2).any (fun p => decide (0 ≤ p))
    then .error solveBracketMsg
    else
      solveRecurse sq f tol
        (List.zipWith (fun x y => ⟨x, f x, y, f y, false⟩) a2 b2) 0

/-- A numpy scalar (0-d) or 1-d array argument of the engine. -/
inductive NArr where
  | scl (x : ℚ)
  | vec (xs : List ℚ)
  deriving DecidableEq

/-- `np.ndim` on the modelled argument shapes. -/
def NArr.ndim : NArr → ℕ
  | .scl _ => 0
  | .vec _ => 1

/-- Lines 328-338 of numeric.py, `solve` with its `np.ndim(a) != np.ndim(b)`
check (line 328): a scalar call is the one-lane run, mismatched ndims raise
the dimension error before anything else (in particular before `f` is ever
applied). -/
def solveA (sq f : ℚ → ℚ) (tol : ℚ) : NArr → NArr → Except String NArr
  | .scl x, .scl y => (solveMain sq f tol [x] [y]).map (fun v => .scl v.headI)
  | .vec xs, .vec ys => (solveMain sq f tol xs ys).map .vec
  | _, _ => .error solveDimMsg

/-- Lines 94-100 of numeric.py, `integrate1.simps3pt`: the midpoint, its
function value and the 3-point Simpson estimate of `[a, b]`. -/
def simps3pt (f : ℚ → ℚ) (a fa b fb : ℚ) : ℚ × ℚ × ℚ :=
  let h := b - a
  let m := a + 0.5 * h
  let fm := f m
  (m, fm, (fa + 4 * fm + fb) * h / 6)

/-- The floor applied to both tolerances at line 109 of numeric.py. -/
def tolFloor : ℚ := 1e-8

/-- State of one lane of `integrate1.recurse`: interval endpoints `a`, `b`,
its midpoint `m`, the cached values `fa, fb, fm` of the integrand there, the
previous Simpson estimate `prev` of `[a, b]` and the lane's entry of the
convergence mask. -/
structure I1Lane where
  a : ℚ
  fa : ℚ
  b : ℚ
  fb : ℚ
  m : ℚ
  fm : ℚ
  prev : ℚ
  conv : Bool
  deriving DecidableEq

/-- Line 111 of numeric.py, one lane: `simps3pt(f, a, fa, m, fm)` giving
`(lm, flm, left)`. -/
def i1left (f : ℚ → ℚ) (l : I1Lane) : ℚ × ℚ × ℚ :=
  simps3pt f l.a l.fa l.m l.fm

/-- Line 112 of numeric.py, one lane: `simps3pt(f, m, fm, b, fb)` giving
`(rm, frm, right)`. -/
def i1right (f : ℚ → ℚ) (l : I1Lane) : ℚ × ℚ × ℚ :=
  simps3pt f l.m l.fm l.b l.fb

/-- Line 114 of numeric.py, one lane:
`current = np.where(conv, prev, left + right)`. -/
def i1current (f : ℚ → ℚ) (l : I1Lane) : ℚ :=
  if l.conv then l.prev else (i1left f l).2.2 + (i1right f l).2.2

/-- Line 116 of numeric.py, one lane (with the tolerances already floored):
`conv = conv | (np.abs(current - prev) <= atol + rtol * np.abs(current))`. -/
def i1convNext (f : ℚ → ℚ) (rtol atol : ℚ) (l : I1Lane) : Bool :=
  l.conv ||
    decide (|i1current f l - l.prev| ≤ atol + rtol * |i1current f l|)

/-- Lines 121-124 of numeric.py, one lane: the state handed to the left
recursive call `recurse(f, a, fa, m, fm, lm, flm, left, ...)`, carrying the
updated mask. -/
def i1childL (f : ℚ → ℚ) (rtol atol : ℚ) (l : I1Lane) : I1Lane :=
  let s := i1left f l
  ⟨l.a, l.fa, l.m, l.fm, s.1, s.2.1, s.2.2, i1convNext f rtol atol l⟩

/-- Lines 125-128 of numeric.py, one lane: the state handed to the right
recursive call `recurse(f, m, fm, b, fb, rm, frm, right, ...)`. -/
def i1childR (f : ℚ → ℚ) (rtol atol : ℚ) (l : I1Lane) : I1Lane :=
  let s := i1right f l
  ⟨l.m, l.fm, l.b, l.fb, s.1, s.2.1, s.2.2, i1convNext f rtol atol l⟩

/-- Lines 102-129 of numeric.py, `integrate1.recurse`, recursing on the fuel
`51 - j` (the source checks `j > 50` at entry): floor the tolerances at
`1e-8`, split each lane's interval, update the mask, raise on an empty
reduction, return `current` when every lane has converged, else recurse into
the two halves — both with the same halved tolerance pair — and add the two
results elementwise. -/
def i1go (f : ℚ → ℚ) : ℕ → List I1Lane → ℚ → ℚ → Except String (List ℚ)
  | 0, _, _, _ => .error i1MaxMsg
  | k + 1, st, rtol, atol =>
    let rtol2 := max rtol tolFloor
    let atol2 := max atol tolFloor
    if st.isEmpty then .error emptyReduceMsg
    else if st.all (fun l => i1convNext f rtol2 atol2 l) then
      .ok (st.map (i1current f))
    else
      match i1go f k (st.map (i1childL f rtol2 atol2)) (rtol2 / 2) (atol2 / 2) with
      | .error e => .error e
      | .ok outL =>
        match i1go f k (st.map (i1childR f rtol2 atol2)) (rtol2 / 2) (atol2 / 2) with
        | .error e => .error e
        | .ok outR => .ok (List.zipWith (· + ·) outL outR)

/-- `integrate1.recurse` called at depth counter `j` (raises once `j > 50`). -/
def i1recurse (f : ℚ → ℚ) (st : List I1Lane) (rtol atol : ℚ) (j : ℕ) :
    Except String (List ℚ) :=
  i1go f (51 - j) st rtol atol

/-- Lines 134-140 of numeric.py, one lane of the entry code of `integrate1`:
cache `fa, fb`, take the whole-interval Simpson estimate as `prev` and start
with an all-false mask. -/
def i1init (f : ℚ → ℚ) (x y : ℚ) : I1Lane :=
  let fa := f x
  let fb := f y
  let s := simps3pt f x fa y fb
  ⟨x, fa, y, fb, s.1, s.2.1, s.2.2, false⟩

/-- Lines 131-141 of numeric.py, `integrate1` on same-length 1-d bounds:
validate the tolerances, build the initial per-lane state and run `recurse`
from depth 0 with the caller's (unfloored) tolerances. -/
def integrate1L (f : ℚ → ℚ) (a b : List ℚ) (rtol atol : ℚ) :
    Except String (List ℚ) :=
  if rtol < 0 ∨ atol < 0 then .error i1TolMsg
  else i1recurse f (List.zipWith (i1init f) a b) rtol atol 0

/-- The tolerance argument that reaches depth `j` of `integrate1.recurse`
when the caller passed `r` at depth 0: each level passes
`max(tolerance, 1e-8) / 2` to both of its recursive calls (see the unfolding
equation proved for claim C2). -/
def i1tolChain (r : ℚ) : ℕ → ℚ
  | 0 => r
  | j + 1 => max (i1tolChain r j) tolFloor / 2

/-- The node/weight table `legendrerule(n)` of `pycosmo2.utils.gaussrules`
(consumed at line 188 of numeric.py): reference-interval nodes, the embedded
Gauss weights and the Kronrod weights. The table is an external collaborator
of the engine; all claims hold for an arbitrary table, so it is a parameter
rather than a reimplementation. -/
structure GKRule where
  node : List ℚ
  wg : List ℚ
  wk : List ℚ
  deriving DecidableEq

/-- The slice `y[1:-1:2]` of a 1-d array: every other element of the
interior. `everyOther` keeps elements at even positions. -/
def everyOther : List ℚ → List ℚ
  | [] => []
  | [x] => [x]
  | x :: _ :: rest => x :: everyOther rest

/-- The slice `y[1:-1:2]` used at line 207 of numeric.py. -/
def oddInterior (ys : List ℚ) : List ℚ := everyOther (ys.drop 1).dropLast

/-- `np.dot` of two 1-d arrays of equal length. -/
def dotL (xs ws : List ℚ) : ℚ := (List.zipWith (· * ·) xs ws).sum

/-- Lines 199-210 of numeric.py for one lane with bounds `x, y`: the affine
map of the reference nodes, the function evaluations and the pair
`(Ig, Ik)` of Gauss and Kronrod estimates. -/
def gkLane (R : GKRule) (f : ℚ → ℚ) (x y : ℚ) : ℚ × ℚ :=
  let m := 0.5 * (y - x)
  let c := x + m
  let ys := R.node.map (fun t => f (m * t + c))
  (m * dotL (oddInterior ys) R.wg, m * dotL ys R.wk)

/-- Warning message of line 213 of numeric.py (array-valued error). -/
def i2WarnVecMsg : String :=
  "atleast some integrals are not converged to specified accuracy"

/-- Warning message of line 215 of numeric.py (scalar error). -/
def i2WarnSclMsg : String := "integral is not converged to specified accuracy"

/-- Lines 188-216 of numeric.py, `integrate2`: the `np.ndim` bound check with
scalar broadcasting (lines 191-197, for the modelled 0-d/1-d shapes), the
Gauss and Kronrod estimates, and the non-fatal warning — scalar or vector
variant by `np.ndim(error)` — when any lane's `|Ig - Ik|` exceeds `eps`; the
Kronrod estimate is returned in every non-raising case. The warning is the
`Option String` component. -/
def integrate2A (R : GKRule) (f : ℚ → ℚ) (eps : ℚ) :
    NArr → NArr → Except String (NArr × Option String)
  | .scl x, .scl y =>
    let p := gkLane R f x y
    .ok (.scl p.2, if eps < |p.1 - p.2| then some i2WarnSclMsg else none)
  | .scl x, .vec ys =>
    let pairs := ys.map (fun y => gkLane R f x y)
    .ok (.vec (pairs.map (fun p => p.2)),
      if pairs.any (fun p => decide (eps < |p.1 - p.2|)) then some i2WarnVecMsg
      else none)
  | .vec xs, .scl y =>
    let pairs := xs.map (fun x => gkLane R f x y)
    .ok (.vec (pairs.map (fun p => p.2)),
      if pairs.any (fun p => decide (eps < |p.1 - p.2|)) then some i2WarnVecMsg
      else none)
  | .vec xs, .vec ys =>
    match broadcast2 xs ys with
    | none => .error broadcastMsg
    | some (xs2, ys2) =>
      let pairs := List.zipWith (fun x y => gkLane R f x y) xs2 ys2
      .ok (.vec (pairs.map (fun p => p.2)),
        if pairs.any (fun p => decide (eps < |p.1 - p.2|)) then some i2WarnVecMsg
        else none)

/-- The Kronrod estimate `Ik` of a call, written independently from the
claim's wording ("always returns the Kronrod estimate Ik") to compare with
what `integrate2A` actually returns. -/
def i2IkSpec (R : GKRule) (f : ℚ → ℚ) : NArr → NArr → NArr
  | .scl x, .scl y => .scl (gkLane R f x y).2
  | .scl x, .vec ys => .vec (ys.map (fun y => (gkLane R f x y).2))
  | .vec xs, .scl y => .vec (xs.map (fun x => (gkLane R f x y).2))
  | .vec xs, .vec ys =>
    match broadcast2 xs ys with
    | none => .vec []
    | some (xs2, ys2) =>
      .vec (List.zipWith (fun x y => (gkLane R f x y).2) xs2 ys2)

/-- The warning behaviour claimed for `integrate2`, written from the claim's
wording: a scalar-variant message when the (scalar) error exceeds `eps`, a
vector-variant message when any lane's error exceeds `eps`, nothing
otherwise; compared with what `integrate2A` actually emits. -/
def i2warnSpec (R : GKRule) (f : ℚ → ℚ) (eps : ℚ) :
    NArr → NArr → Option String
  | .scl x, .scl y =>
    if eps < |(gkLane R f x y).1 - (gkLane R f x y).2| then some i2WarnSclMsg
    else none
  | .scl x, .vec ys =>
    if (ys.map (fun y => gkLane R f x y)).any
        (fun p => decide (eps < |p.1 - p.2|)) then some i2WarnVecMsg
    else none
  | .vec xs, .scl y =>
    if (xs.map (fun x => gkLane R f x y)).any
        (fun p => decide (eps < |p.1 - p.2|)) then some i2WarnVecMsg
    else none
  | .vec xs, .vec ys =>
    match broadcast2 xs ys with
    | none => none
    | some (xs2, ys2) =>
      if (List.zipWith (fun x y => gkLane R f x y) xs2 ys2).any
          (fun p => decide (eps < |p.1 - p.2|)) then some i2WarnVecMsg
      else none

/-- Shape compatibility of two 1-d/0-d bounds: the only case numpy rejects
in the body of `integrate2` is two 1-d arrays of incompatible lengths. -/
def i2compat : NArr → NArr → Prop
  | .vec xs, .vec ys =>
    xs.length = ys.length ∨ xs.length = 1 ∨ ys.length = 1
  | _, _ => True

/-- Integrand of the counterexample runs for claims C1 and C3: zero except at
the depth-2 sample point 1/8 of the first lane's interval `[0, 1]` and the
depth-0 sample point 9/4 of the second lane's interval `[2, 3]`. -/
def cexF : ℚ → ℚ := fun x => if x = 1/8 then 96 else if x = 9/4 then 6 else 0

/-- Function of the counterexample run for claim C5: `x^3 - x`, whose root 0
is hit exactly by the first Ridders midpoint on the bracket `[-2, 2]`. -/
def c5F : ℚ → ℚ := fun x => x ^ 3 - x

/-- Square root used by the C5 counterexample run; exact at the only
radicand (36) that run reaches before losing the strict sign change. -/
def c5Sqrt : ℚ → ℚ := fun q => if q = 36 then 6 else 0

/-- Initial lane of the C5 counterexample: bracket `[-2, 2]` for `c5F`, with
`fa = c5F (-2) = -6` and `fb = c5F 2 = 6`. -/
def c5L0 : SLane := ⟨-2, -6, 2, 6, false⟩

/-- Lane used by the witnesses of claims C5 and C10: bracket `[1/2, 3]` for
`c5wF` with `fa = -3/4`, `fb = 3`. -/
def c5wL : SLane := ⟨1/2, -3/4, 3, 3, false⟩

/-- Function of the C5/C10 step witnesses: `x^2 - 2x`. -/
def c5wF : ℚ → ℚ := fun x => x ^ 2 - 2 * x

/-- Square root for the C5/C10 step witnesses, exact at the single radicand
`625/256` the witnessed step evaluates. -/
def c5wSqrt : ℚ → ℚ := fun q => if q = 625/256 then 25/16 else 0

/-- Quadrature table used by the C6 witness. -/
def wRule : GKRule := ⟨[-1, 0, 1], [1], [2, 3, 4]⟩

theorem slaneConv_a (tol : ℚ) (l : SLane) : (slaneConv tol l).a = l.a := rfl

theorem slaneConv_b (tol : ℚ) (l : SLane) : (slaneConv tol l).b = l.b := rfl

theorem slaneConv_fa (tol : ℚ) (l : SLane) : (slaneConv tol l).fa = l.fa := rfl

theorem slaneConv_fb (tol : ℚ) (l : SLane) : (slaneConv tol l).fb = l.fb := rfl

theorem slaneMid_slaneConv (tol : ℚ) (l : SLane) :
    slaneMid (slaneConv tol l) = slaneMid l := rfl

theorem slaneConv_conv_of (tol : ℚ) (l : SLane) (h : l.conv = true) :
    (slaneConv tol l).conv = true := by
  simp [slaneConv, h]

theorem slaneStep_of_conv (sq f : ℚ → ℚ) (l : SLane) (h : l.conv = true) :
    slaneStep sq f l = l := by
  simp [slaneStep, h]

theorem slaneStep_conv (sq f : ℚ → ℚ) (l : SLane) :
    (slaneStep sq f l).conv = l.conv := by
  unfold slaneStep
  split
  · rfl
  · dsimp only
    split
    · rfl
    · split <;> rfl

theorem solveGo_ok_length (sq f : ℚ → ℚ) (tol : ℚ) :
    ∀ (k : ℕ) (st : List SLane) (v : List ℚ),
      solveGo sq f tol k st = .ok v → v.length = st.length := by
  intro k
  induction k with
  | zero => intro st v h; simp [solveGo] at h
  | succ k ih =>
    intro st v h
    rw [solveGo] at h
    by_cases he : (st.map (slaneConv tol)).isEmpty
    · simp [he] at h
    · simp only [he, if_false, Bool.false_eq_true] at h
      by_cases hall : (st.map (slaneConv tol)).all (fun l => l.conv)
      · simp only [hall, if_true] at h
        cases h
        simp
      · simp only [hall, if_false, Bool.false_eq_true] at h
        have := ih _ _ h
        simpa using this

theorem solveGo_frozenAux (sq f : ℚ → ℚ) (tol : ℚ) :
    ∀ (k : ℕ) (st : List SLane) (v : List ℚ),
      solveGo sq f tol k st = .ok v →
      ∀ (i : ℕ) (hs : i < st.length) (hv : i < v.length),
        (st.get ⟨i, hs⟩).conv = true →
        v.get ⟨i, hv⟩ = slaneMid (st.get ⟨i, hs⟩) := by
  intro k
  induction k with
  | zero => intro st v h; simp [solveGo] at h
  | succ k ih =>
    intro st v h i hs hv hc
    rw [solveGo] at h
    by_cases he : (st.map (slaneConv tol)).isEmpty
    · simp [he] at h
    · simp only [he, if_false, Bool.false_eq_true] at h
      by_cases hall : (st.map (slaneConv tol)).all (fun l => l.conv)
      · simp only [hall, if_true] at h
        cases h
        simp only [List.get_eq_getElem, List.getElem_map]
        rw [slaneMid_slaneConv]
      · simp only [hall, if_false, Bool.false_eq_true] at h
        have hs2 : i < ((st.map (slaneConv tol)).map (slaneStep sq f)).length := by
          simpa using hs
        have hc2 :
            (((st.map (slaneConv tol)).map (slaneStep sq f)).get ⟨i, hs2⟩).conv
              = true := by
          simp only [List.get_eq_getElem, List.getElem_map]
          rw [slaneStep_conv]
          exact slaneConv_conv_of tol _ hc
        have := ih _ _ h i hs2 hv hc2
        rw [this]
        simp only [List.get_eq_getElem, List.getElem_map]
        rw [slaneStep_of_conv, slaneMid_slaneConv]
        exact slaneConv_conv_of tol _ hc

theorem solveGo_error_msg (sq f : ℚ → ℚ) (tol : ℚ) :
    ∀ (k : ℕ) (st : List SLane) (e : String),
      solveGo sq f tol k st = .error e →
      e = solveMaxMsg ∨ e = emptyReduceMsg := by
  intro k
  induction k with
  | zero =>
    intro st e h
    rw [solveGo] at h
    cases h
    exact Or.inl rfl
  | succ k ih =>
    intro st e h
    rw [solveGo] at h
    by_cases he : (st.map (slaneConv tol)).isEmpty
    · simp only [he, if_true] at h
      cases h
      exact Or.inr rfl
    · simp only [he, if_false, Bool.false_eq_true] at h
      by_cases hall : (st.map (slaneConv tol)).all (fun l => l.conv)
      · simp [hall] at h
      · simp only [hall, if_false, Bool.false_eq_true] at h
        exact ih _ _ h

theorem solveGo_total (sq f : ℚ → ℚ) (tol : ℚ) :
    ∀ (k : ℕ) (st : List SLane), st ≠ [] →
      (∃ v, solveGo sq f tol k st = .ok v ∧ v.length = st.length) ∨
        solveGo sq f tol k st = .error solveMaxMsg := by
  intro k
  induction k with
  | zero => intro st _; exact Or.inr rfl
  | succ k ih =>
    intro st hne
    rw [solveGo]
    by_cases he : (st.map (slaneConv tol)).isEmpty
    · exact absurd (by simpa using he) hne
    · simp only [he, if_false, Bool.false_eq_true]
      by_cases hall : (st.map (slaneConv tol)).all (fun l => l.conv)
      · simp only [hall, if_true]
        exact Or.inl ⟨_, rfl, by simp⟩
      · simp only [hall, if_false, Bool.false_eq_true]
        have hne2 : (st.map (slaneConv tol)).map (slaneStep sq f) ≠ [] := by
          simpa using hne
        rcases ih _ hne2 with ⟨v, hv, hlen⟩ | herr
        · exact Or.inl ⟨v, hv, by simpa using hlen⟩
        · exact Or.inr herr

theorem solveGo_pair (sq f : ℚ → ℚ) (tol : ℚ) :
    ∀ (k : ℕ) (l1 l2 : SLane) (v : List ℚ),
      solveGo sq f tol k [l1, l2] = .ok v →
      ∃ r1 r2, v = [r1, r2] ∧
        solveGo sq f tol k [l1] = .ok [r1] ∧
        solveGo sq f tol k [l2] = .ok [r2] := by
  intro k
  induction k with
  | zero => intro l1 l2 v h; simp [solveGo] at h
  | succ k ih =>
    intro l1 l2 v h
    rw [solveGo] at h
    simp only [List.map_cons, List.map_nil, List.isEmpty_cons, if_false,
      Bool.false_eq_true, List.all_cons, List.all_nil, Bool.and_true] at h
    by_cases h1 : (slaneConv tol l1).conv
    · by_cases h2 : (slaneConv tol l2).conv
      · simp only [h1, h2, Bool.true_and, if_true] at h
        cases h
        refine ⟨slaneMid (slaneConv tol l1), slaneMid (slaneConv tol l2),
          rfl, ?_, ?_⟩ <;>
          · rw [solveGo]
            simp [h1, h2]
      · simp only [h1, h2, Bool.true_and, if_false, Bool.false_eq_true] at h
        rcases ih _ _ _ h with ⟨r1, r2, hv, hs1, hs2⟩
        have hstep1 : slaneStep sq f (slaneConv tol l1) = slaneConv tol l1 :=
          slaneStep_of_conv sq f _ h1
        rw [hstep1] at hs1
        have hr1 : r1 = slaneMid (slaneConv tol l1) := by
          have := solveGo_frozenAux sq f tol k [slaneConv tol l1] [r1] hs1
            0 (by simp) (by simp) (by simpa using h1)
          simpa using this
        refine ⟨r1, r2, hv, ?_, ?_⟩
        · rw [solveGo]
          simp [h1, hr1]
        · rw [solveGo]
          simp only [List.map_cons, List.map_nil, List.isEmpty_cons, if_false,
            Bool.false_eq_true, List.all_cons, List.all_nil, Bool.and_true, h2]
          exact hs2
    · simp only [h1, Bool.false_and, if_false, Bool.false_eq_true] at h
      rcases ih _ _ _ h with ⟨r1, r2, hv, hs1, hs2⟩
      refine ⟨r1, r2, hv, ?_, ?_⟩
      · rw [solveGo]
        simp only [List.map_cons, List.map_nil, List.isEmpty_cons, if_false,
          Bool.false_eq_true, List.all_cons, List.all_nil, Bool.and_true, h1]
        exact hs1
      · by_cases h2 : (slaneConv tol l2).conv
        · have hstep2 : slaneStep sq f (slaneConv tol l2) = slaneConv tol l2 :=
            slaneStep_of_conv sq f _ h2
          rw [hstep2] at hs2
          have hr2 : r2 = slaneMid (slaneConv tol l2) := by
            have := solveGo_frozenAux sq f tol k [slaneConv tol l2] [r2] hs2
              0 (by simp) (by simp) (by simpa using h2)
            simpa using this
          rw [solveGo]
          simp [h2, hr2]
        · rw [solveGo]
          simp only [List.map_cons, List.map_nil, List.isEmpty_cons, if_false,
            Bool.false_eq_true, List.all_cons, List.all_nil, Bool.and_true, h2]
          exact hs2

theorem slaneC_eq (l : SLane) : slaneC l = (l.a + l.b) / 2 := by
  unfold slaneC; norm_num; ring

theorem slaneC_between (l : SLane) :
    min l.a l.b ≤ slaneC l ∧ slaneC l ≤ max l.a l.b := by
  rw [slaneC_eq]
  rcases le_total l.a l.b with h | h
  · rw [min_eq_left h, max_eq_right h]
    constructor <;> linarith
  · rw [min_eq_right h, max_eq_left h]
    constructor <;> linarith

theorem near_mid_between (l : SLane) (x : ℚ)
    (h : |x - slaneC l| ≤ |slaneC l - l.a|) :
    min l.a l.b ≤ x ∧ x ≤ max l.a l.b := by
  rw [abs_le] at h
  rw [slaneC_eq] at h
  rcases le_total l.a l.b with hab | hab
  · rw [min_eq_left hab, max_eq_right hab]
    have h2 : |(l.a + l.b) / 2 - l.a| = (l.b - l.a) / 2 := by
      rw [abs_of_nonneg] <;> linarith
    rw [h2] at h
    constructor <;> linarith [h.1, h.2]
  · rw [min_eq_right hab, max_eq_left hab]
    have h2 : |(l.a + l.b) / 2 - l.a| = (l.a - l.b) / 2 := by
      rw [abs_of_nonpos] <;> [skip; linarith]
      ring
    rw [h2] at h
    constructor <;> linarith [h.1, h.2]

theorem slaneRad_nonneg (f : ℚ → ℚ) (l : SLane) (hsign : l.fa * l.fb ≤ 0) :
    0 ≤ slaneRad f l := by
  unfold slaneRad
  nlinarith [mul_self_nonneg (slaneFc f l)]

theorem slaneDelta_bound (sq f : ℚ → ℚ) (l : SLane)
    (hsign : l.fa * l.fb ≤ 0)
    (hsq : 0 ≤ slaneRad f l →
      sq (slaneRad f l) * sq (slaneRad f l) = slaneRad f l ∧
        0 ≤ sq (slaneRad f l)) :
    |slaneDelta sq f l| ≤ |slaneC l - l.a| := by
  have hrn : 0 ≤ slaneRad f l := slaneRad_nonneg f l hsign
  obtain ⟨hs2, hs0⟩ := hsq hrn
  rcases eq_or_lt_of_le hrn with heq | hpos
  · have hfc2 : slaneFc f l * slaneFc f l = 0 := by
      have := heq.symm
      unfold slaneRad at this
      nlinarith [mul_self_nonneg (slaneFc f l)]
    have hfc : slaneFc f l = 0 := mul_self_eq_zero.mp hfc2
    rw [slaneDelta, hfc]
    simp [abs_nonneg]
  · have hspos : 0 < sq (slaneRad f l) := by
      rcases eq_or_lt_of_le hs0 with h0 | h0
      · exfalso
        rw [← h0] at hs2
        simp at hs2
        exact absurd hs2.symm (ne_of_gt hpos)
      · exact h0
    have hfcle : |slaneFc f l| ≤ sq (slaneRad f l) := by
      by_contra hcon
      push_neg at hcon
      have hlt : sq (slaneRad f l) * sq (slaneRad f l) <
          |slaneFc f l| * |slaneFc f l| := by nlinarith [abs_nonneg (slaneFc f l)]
      rw [hs2, abs_mul_abs_self] at hlt
      unfold slaneRad at hlt
      linarith
    rw [slaneDelta, abs_div, abs_mul, abs_of_pos hspos]
    rw [div_le_iff₀ hspos]
    calc |slaneC l - l.a| * |slaneFc f l|
        ≤ |slaneC l - l.a| * sq (slaneRad f l) := by
          exact mul_le_mul_of_nonneg_left hfcle (abs_nonneg _)
      _ = |slaneC l - l.a| * sq (slaneRad f l) := rfl

theorem slaneD_between (sq f : ℚ → ℚ) (l : SLane)
    (hsign : l.fa * l.fb ≤ 0)
    (hsq : 0 ≤ slaneRad f l →
      sq (slaneRad f l) * sq (slaneRad f l) = slaneRad f l ∧
        0 ≤ sq (slaneRad f l)) :
    min l.a l.b ≤ slaneD sq f l ∧ slaneD sq f l ≤ max l.a l.b := by
  apply near_mid_between
  have hb := slaneDelta_bound sq f l hsign hsq
  unfold slaneD
  split
  · rw [show slaneC l - slaneDelta sq f l - slaneC l = -slaneDelta sq f l by ring,
      abs_neg]
    exact hb
  · rw [show slaneC l + slaneDelta sq f l - slaneC l = slaneDelta sq f l by ring]
    exact hb

theorem slaneC_double (l : SLane) : 2 * slaneC l - l.a = l.b := by
  rw [slaneC_eq]; ring

theorem slaneD_of_faZero_fcPos (sq f : ℚ → ℚ) (l : SLane)
    (hfc : 0 < slaneFc f l)
    (hseq : sq (slaneRad f l) = |slaneFc f l|) :
    slaneD sq f l = if l.fa < l.fb then l.a else l.b := by
  have hdelta : slaneDelta sq f l = slaneC l - l.a := by
    rw [slaneDelta, hseq, abs_of_pos hfc,
      mul_div_assoc, div_self (ne_of_gt hfc), mul_one]
  unfold slaneD
  have hdd := slaneC_double l
  split <;> rw [hdelta] <;> linarith

theorem slaneD_of_faZero_fcNeg (sq f : ℚ → ℚ) (l : SLane)
    (hfc : slaneFc f l < 0)
    (hseq : sq (slaneRad f l) = |slaneFc f l|) :
    slaneD sq f l = if l.fa < l.fb then l.b else l.a := by
  have hdelta : slaneDelta sq f l = -(slaneC l - l.a) := by
    rw [slaneDelta, hseq, abs_of_neg hfc, div_neg,
      mul_div_assoc, div_self (ne_of_lt hfc), mul_one]
  have hdd := slaneC_double l
  unfold slaneD
  split <;> rw [hdelta] <;> linarith

theorem slaneStep_sign (sq f : ℚ → ℚ) (l : SLane)
    (hfa : l.fa = f l.a) (hfb : l.fb = f l.b)
    (hsign : l.fa * l.fb ≤ 0)
    (hsq : 0 ≤ slaneRad f l →
      sq (slaneRad f l) * sq (slaneRad f l) = slaneRad f l ∧
        0 ≤ sq (slaneRad f l)) :
    (slaneStep sq f l).fa * (slaneStep sq f l).fb ≤ 0 := by
  by_cases hconv : l.conv
  · rw [slaneStep_of_conv sq f l hconv]; exact hsign
  · unfold slaneStep
    simp only [hconv, Bool.false_eq_true, if_false]
    split_ifs with h1 h2
    · exact le_of_lt h1
    · exact le_of_lt h2
    · push_neg at h1 h2
      rcases eq_or_ne (f (slaneD sq f l)) 0 with hfd0 | hfd0
      · simp [hfd0]
      · rcases eq_or_ne l.fb 0 with hfb0 | hfb0
        · simp [hfb0]
        · rcases eq_or_ne l.fa 0 with hfa0 | hfa0
          · -- fa = 0 and the square root is exact at fc^2, so d is a or b
            exfalso
            have hrad : slaneRad f l = slaneFc f l * slaneFc f l := by
              unfold slaneRad; rw [hfa0]; ring
            rcases eq_or_ne (slaneFc f l) 0 with hfc0 | hfc0
            · have hdelta : slaneDelta sq f l = 0 := by
                rw [slaneDelta, hfc0, mul_zero, zero_div]
              have hd : slaneD sq f l = slaneC l := by
                unfold slaneD; split <;> rw [hdelta] <;> ring
              rw [hd] at hfd0
              exact hfd0 hfc0
            · have hrn : 0 ≤ slaneRad f l := by
                rw [hrad]; exact mul_self_nonneg _
              obtain ⟨hs2, hs0⟩ := hsq hrn
              have hseq : sq (slaneRad f l) = |slaneFc f l| := by
                have hh : sq (slaneRad f l) * sq (slaneRad f l)
                    = |slaneFc f l| * |slaneFc f l| := by
                  rw [hs2, abs_mul_abs_self, hrad]
                nlinarith [abs_nonneg (slaneFc f l)]
              rcases lt_or_gt_of_ne hfc0 with hfcneg | hfcpos
              · have hd := slaneD_of_faZero_fcNeg sq f l hfcneg hseq
                by_cases hab : l.fa < l.fb
                · -- d = b, fd = fb, and fc*fb < 0 contradicts the branch
                  rw [if_pos hab] at hd
                  rw [hd, ← hfb] at h1
                  have : slaneFc f l * l.fb < 0 := by
                    apply mul_neg_of_neg_of_pos hfcneg
                    rcases lt_trichotomy l.fb 0 with h | h | h
                    · exact absurd hab (by rw [hfa0]; exact not_lt.mpr (le_of_lt h))
                    · exact absurd h hfb0
                    · exact h
                  linarith
                · -- d = a, fd = fa = 0 contradicts fd nonzero
                  rw [if_neg hab] at hd
                  rw [hd, ← hfa, hfa0] at hfd0
                  exact hfd0 rfl
              · have hd := slaneD_of_faZero_fcPos sq f l hfcpos hseq
                by_cases hab : l.fa < l.fb
                · -- d = a, fd = fa = 0 contradicts fd nonzero
                  rw [if_pos hab] at hd
                  rw [hd, ← hfa, hfa0] at hfd0
                  exact hfd0 rfl
                · -- d = b, fd = fb, and fc*fb < 0 contradicts the branch
                  rw [if_neg hab] at hd
                  rw [hd, ← hfb] at h1
                  have hfbneg : l.fb < 0 := by
                    rcases lt_trichotomy l.fb 0 with h | h | h
                    · exact h
                    · exact absurd h hfb0
                    · exact absurd (by rw [hfa0]; exact h) hab
                  have : slaneFc f l * l.fb < 0 :=
                    mul_neg_of_pos_of_neg hfcpos hfbneg
                  linarith
          · -- fa nonzero: fa*fd > 0 transfers the sign change to (d, b)
            have h3 : 0 < l.fa * f (slaneD sq f l) := by
              rcases lt_or_eq_of_le h2 with h | h
              · exact h
              · exact absurd h.symm (mul_ne_zero hfa0 hfd0)
            by_contra hcon
            push_neg at hcon
            nlinarith [mul_pos h3 hcon,
              mul_nonneg (mul_self_nonneg (f (slaneD sq f l)))
                (neg_nonneg.mpr hsign)]

theorem slaneStep_coh (sq f : ℚ → ℚ) (l : SLane)
    (hfa : l.fa = f l.a) (hfb : l.fb = f l.b) :
    (slaneStep sq f l).fa = f (slaneStep sq f l).a ∧
      (slaneStep sq f l).fb = f (slaneStep sq f l).b := by
  unfold slaneStep
  split
  · exact ⟨hfa, hfb⟩
  · dsimp only
    split_ifs <;> exact ⟨by simp [slaneFc, hfa], by simp [slaneFc, hfb]⟩

theorem slaneStep_hull (sq f : ℚ → ℚ) (l : SLane)
    (hsign : l.fa * l.fb ≤ 0)
    (hsq : 0 ≤ slaneRad f l →
      sq (slaneRad f l) * sq (slaneRad f l) = slaneRad f l ∧
        0 ≤ sq (slaneRad f l)) :
    min l.a l.b ≤ min (slaneStep sq f l).a (slaneStep sq f l).b ∧
      max (slaneStep sq f l).a (slaneStep sq f l).b ≤ max l.a l.b := by
  have hc := slaneC_between l
  have hd := slaneD_between sq f l hsign hsq
  have haa : min l.a l.b ≤ l.a ∧ l.a ≤ max l.a l.b :=
    ⟨min_le_left _ _, le_max_left _ _⟩
  have hbb : min l.a l.b ≤ l.b ∧ l.b ≤ max l.a l.b :=
    ⟨min_le_right _ _, le_max_right _ _⟩
  unfold slaneStep
  split
  · exact ⟨le_min haa.1 hbb.1, max_le haa.2 hbb.2⟩
  · dsimp only
    split_ifs
    · exact ⟨le_min hc.1 hd.1, max_le hc.2 hd.2⟩
    · exact ⟨le_min haa.1 hd.1, max_le haa.2 hd.2⟩
    · exact ⟨le_min hd.1 hbb.1, max_le hd.2 hbb.2⟩

theorem solveStates_cons (sq f : ℚ → ℚ) (tol : ℚ) (k : ℕ) (st : List SLane)
    (he : ¬(st.map (slaneConv tol)).isEmpty = true)
    (hall : ¬(st.map (slaneConv tol)).all (fun l => l.conv) = true) :
    solveStates sq f tol (k + 1) st =
      st.map (slaneConv tol) ::
        solveStates sq f tol k
          ((st.map (slaneConv tol)).map (slaneStep sq f)) := by
  rw [solveStates]
  simp only [he, hall, if_false, Bool.false_eq_true]

theorem solveGo_nested (sq f : ℚ → ℚ) (tol : ℚ) :
    ∀ (k : ℕ) (st : List SLane) (v : List ℚ),
      (∀ l ∈ st, l.fa = f l.a ∧ l.fb = f l.b) →
      (∀ l ∈ st, l.fa * l.fb ≤ 0) →
      (∀ s ∈ solveStates sq f tol k st, ∀ l ∈ s, l.conv = false →
        0 ≤ slaneRad f l →
          sq (slaneRad f l) * sq (slaneRad f l) = slaneRad f l ∧
            0 ≤ sq (slaneRad f l)) →
      solveGo sq f tol k st = .ok v →
      ∀ (i : ℕ) (hs : i < st.length) (hv : i < v.length),
        min (st.get ⟨i, hs⟩).a (st.get ⟨i, hs⟩).b ≤ v.get ⟨i, hv⟩ ∧
          v.get ⟨i, hv⟩ ≤ max (st.get ⟨i, hs⟩).a (st.get ⟨i, hs⟩).b := by
  intro k
  induction k with
  | zero => intro st v _ _ _ h; simp [solveGo] at h
  | succ k ih =>
    intro st v hcoh hsign hsq h i hs hv
    rw [solveGo] at h
    by_cases he : (st.map (slaneConv tol)).isEmpty
    · simp [he] at h
    · simp only [he, if_false, Bool.false_eq_true] at h
      by_cases hall : (st.map (slaneConv tol)).all (fun l => l.conv)
      · simp only [hall, if_true] at h
        cases h
        simp only [List.get_eq_getElem, List.getElem_map]
        have := slaneC_between (slaneConv tol (st.get ⟨i, hs⟩))
        simp only [slaneConv] at this
        exact ⟨this.1, this.2⟩
      · simp only [hall, if_false, Bool.false_eq_true] at h
        have hstates := solveStates_cons sq f tol k st he hall
        set st2 := (st.map (slaneConv tol)).map (slaneStep sq f) with hst2
        have hsqHead : ∀ l ∈ st.map (slaneConv tol), l.conv = false →
            0 ≤ slaneRad f l →
              sq (slaneRad f l) * sq (slaneRad f l) = slaneRad f l ∧
                0 ≤ sq (slaneRad f l) := by
          intro l hl
          exact hsq _ (by rw [hstates]; exact List.mem_cons_self _ _) l hl
        have hsqTail : ∀ s ∈ solveStates sq f tol k st2, ∀ l ∈ s,
            l.conv = false → 0 ≤ slaneRad f l →
              sq (slaneRad f l) * sq (slaneRad f l) = slaneRad f l ∧
                0 ≤ sq (slaneRad f l) := by
          intro s hsmem
          exact hsq _ (by rw [hstates]; exact List.mem_cons_of_mem _ hsmem)
        have hcohm : ∀ l ∈ st.map (slaneConv tol), l.fa = f l.a ∧ l.fb = f l.b := by
          intro l hl
          rcases List.mem_map.mp hl with ⟨l0, hl0, rfl⟩
          exact hcoh l0 hl0
        have hsignm : ∀ l ∈ st.map (slaneConv tol), l.fa * l.fb ≤ 0 := by
          intro l hl
          rcases List.mem_map.mp hl with ⟨l0, hl0, rfl⟩
          exact hsign l0 hl0
        have hstepProps : ∀ l ∈ st.map (slaneConv tol),
            ((slaneStep sq f l).fa = f (slaneStep sq f l).a ∧
              (slaneStep sq f l).fb = f (slaneStep sq f l).b) ∧
            (slaneStep sq f l).fa * (slaneStep sq f l).fb ≤ 0 ∧
            (min l.a l.b ≤ min (slaneStep sq f l).a (slaneStep sq f l).b ∧
              max (slaneStep sq f l).a (slaneStep sq f l).b ≤ max l.a l.b) := by
          intro l hl
          by_cases hcv : l.conv
          · rw [slaneStep_of_conv sq f l hcv]
            exact ⟨hcohm l hl, hsignm l hl,
              ⟨le_refl _, le_refl _⟩⟩
          · have hsq1 := hsqHead l hl (by simpa using hcv)
            exact ⟨slaneStep_coh sq f l (hcohm l hl).1 (hcohm l hl).2,
              slaneStep_sign sq f l (hcohm l hl).1 (hcohm l hl).2
                (hsignm l hl) hsq1,
              slaneStep_hull sq f l (hsignm l hl) hsq1⟩
        have hcoh2 : ∀ l ∈ st2, l.fa = f l.a ∧ l.fb = f l.b := by
          intro l hl
          rcases List.mem_map.mp hl with ⟨l0, hl0, rfl⟩
          exact (hstepProps l0 hl0).1
        have hsign2 : ∀ l ∈ st2, l.fa * l.fb ≤ 0 := by
          intro l hl
          rcases List.mem_map.mp hl with ⟨l0, hl0, rfl⟩
          exact (hstepProps l0 hl0).2.1
        have hs2 : i < st2.length := by simp [hst2]; simpa using hs
        have hmain := ih st2 v hcoh2 hsign2 hsqTail h i hs2 hv
        have hhull := (hstepProps ((st.map (slaneConv tol)).get
          ⟨i, by simpa using hs⟩)
          (List.get_mem _ _ _)).2.2
        simp only [List.get_eq_getElem, List.getElem_map] at hmain hhull
        simp only [hst2, List.get_eq_getElem, List.getElem_map] at hmain
        constructor
        · refine le_trans ?_ hmain.1
          have : min ((st.map (slaneConv tol)).get ⟨i, by simpa using hs⟩).a
              ((st.map (slaneConv tol)).get ⟨i, by simpa using hs⟩).b =
              min (st.get ⟨i, hs⟩).a (st.get ⟨i, hs⟩).b := by
            simp [List.getElem_map, slaneConv]
          rw [← this]
          simpa [List.getElem_map] using hhull.1
        · refine le_trans hmain.2 ?_
          have : max ((st.map (slaneConv tol)).get ⟨i, by simpa using hs⟩).a
              ((st.map (slaneConv tol)).get ⟨i, by simpa using hs⟩).b =
              max (st.get ⟨i, hs⟩).a (st.get ⟨i, hs⟩).b := by
            simp [List.getElem_map, slaneConv]
          rw [← this]
          simpa [List.getElem_map] using hhull.2

theorem i1go_error_msg (f : ℚ → ℚ) :
    ∀ (k : ℕ) (st : List I1Lane) (rtol atol : ℚ) (e : String),
      i1go f k st rtol atol = .error e → e = i1MaxMsg ∨ e = emptyReduceMsg := by
  intro k
  induction k with
  | zero =>
    intro st r a e h
    rw [i1go] at h
    cases h
    exact Or.inl rfl
  | succ k ih =>
    intro st r a e h
    rw [i1go] at h
    by_cases he : st.isEmpty
    · simp only [he, if_true] at h
      cases h
      exact Or.inr rfl
    · simp only [he, if_false, Bool.false_eq_true] at h
      by_cases hall : st.all
          (fun l => i1convNext f (max r tolFloor) (max a tolFloor) l)
      · simp [hall] at h
      · simp only [hall, if_false, Bool.false_eq_true] at h
        rcases hL : i1go f k (st.map (i1childL f (max r tolFloor) (max a tolFloor)))
            (max r tolFloor / 2) (max a tolFloor / 2) with eL | vL
        · rw [hL] at h
          cases h
          exact ih _ _ _ _ hL
        · rw [hL] at h
          rcases hR : i1go f k (st.map (i1childR f (max r tolFloor) (max a tolFloor)))
              (max r tolFloor / 2) (max a tolFloor / 2) with eR | vR
          · rw [hR] at h
            cases h
            exact ih _ _ _ _ hR
          · rw [hR] at h
            cases h

theorem i1go_total (f : ℚ → ℚ) :
    ∀ (k : ℕ) (st : List I1Lane) (rtol atol : ℚ), st ≠ [] →
      (∃ v, i1go f k st rtol atol = .ok v ∧ v.length = st.length) ∨
        i1go f k st rtol atol = .error i1MaxMsg := by
  intro k
  induction k with
  | zero => intro st r a _; exact Or.inr rfl
  | succ k ih =>
    intro st r a hne
    rw [i1go]
    by_cases he : st.isEmpty
    · exact absurd (List.isEmpty_iff.mp he) hne
    · simp only [he, if_false, Bool.false_eq_true]
      by_cases hall : st.all
          (fun l => i1convNext f (max r tolFloor) (max a tolFloor) l)
      · simp only [hall, if_true]
        exact Or.inl ⟨_, rfl, by simp⟩
      · simp only [hall, if_false, Bool.false_eq_true]
        have hneL : st.map (i1childL f (max r tolFloor) (max a tolFloor)) ≠ [] := by
          simpa using hne
        have hneR : st.map (i1childR f (max r tolFloor) (max a tolFloor)) ≠ [] := by
          simpa using hne
        rcases ih (st.map (i1childL f (max r tolFloor) (max a tolFloor)))
            (max r tolFloor / 2) (max a tolFloor / 2) hneL with ⟨vL, hL, hlenL⟩ | hL
        · rw [hL]
          rcases ih (st.map (i1childR f (max r tolFloor) (max a tolFloor)))
              (max r tolFloor / 2) (max a tolFloor / 2) hneR with ⟨vR, hR, hlenR⟩ | hR
          · rw [hR]
            refine Or.inl ⟨_, rfl, ?_⟩
            simp only [List.length_zipWith]
            simp only [List.length_map] at hlenL hlenR
            omega
          · rw [hR]
            exact Or.inr rfl
        · rw [hL]
          exact Or.inr rfl

theorem tolFloor_nonneg : (0 : ℚ) ≤ tolFloor := by
  unfold tolFloor; norm_num

theorem max_half_floor (x c : ℚ) (hc : 0 ≤ c) :
    max (max x c / 2) c = max (x / 2) c := by
  rcases le_total x c with h | h
  · rw [max_eq_right h]
    rw [max_eq_right (by linarith : c / 2 ≤ c),
      max_eq_right (by linarith : x / 2 ≤ c)]
  · rw [max_eq_left h]

theorem max_half_congr (x y c : ℚ) (hc : 0 ≤ c) (h : max x c = max y c) :
    max (x / 2) c = max (y / 2) c := by
  rcases le_total x c with hx | hx <;> rcases le_total y c with hy | hy
  · rw [max_eq_right (by linarith : x / 2 ≤ c),
      max_eq_right (by linarith : y / 2 ≤ c)]
  · rw [max_eq_right hx, max_eq_left hy] at h
    rw [max_eq_right (by linarith : x / 2 ≤ c),
      max_eq_right (by linarith : y / 2 ≤ c)]
  · rw [max_eq_left hx, max_eq_right hy] at h
    rw [max_eq_right (by linarith : x / 2 ≤ c),
      max_eq_right (by linarith : y / 2 ≤ c)]
  · rw [max_eq_left hx, max_eq_left hy] at h
    rw [h]

theorem i1tolChain_used (r : ℚ) :
    ∀ j : ℕ, max (i1tolChain r j) tolFloor = max (r / 2 ^ j) tolFloor := by
  intro j
  induction j with
  | zero => rw [i1tolChain, pow_zero, div_one]
  | succ j ih =>
    rw [i1tolChain, max_half_floor _ _ tolFloor_nonneg,
      max_half_congr _ _ _ tolFloor_nonneg ih, div_div, ← pow_succ]

theorem i1recurse_unfold (f : ℚ → ℚ) (st : List I1Lane) (rtol atol : ℚ)
    (j : ℕ) (hj : j ≤ 50) (hne : st.isEmpty = false)
    (hnc : ¬ st.all
      (fun l => i1convNext f (max rtol tolFloor) (max atol tolFloor) l) = true) :
    i1recurse f st rtol atol j =
      match i1recurse f
          (st.map (i1childL f (max rtol tolFloor) (max atol tolFloor)))
          (max rtol tolFloor / 2) (max atol tolFloor / 2) (j + 1) with
      | .error e => .error e
      | .ok outL =>
        match i1recurse f
            (st.map (i1childR f (max rtol tolFloor) (max atol tolFloor)))
            (max rtol tolFloor / 2) (max atol tolFloor / 2) (j + 1) with
        | .error e => .error e
        | .ok outR => .ok (List.zipWith (· + ·) outL outR) := by
  unfold i1recurse
  have hk : 51 - j = (51 - (j + 1)) + 1 := by omega
  rw [hk, i1go]
  simp only [hne, if_false, Bool.false_eq_true, hnc]

theorem zipWith_any_iff (g : ℚ → ℚ → ℚ) (p : ℚ → Bool) :
    ∀ (xs ys : List ℚ),
      ((List.zipWith g xs ys).any p = true ↔
        ∃ (i : ℕ) (h1 : i < xs.length) (h2 : i < ys.length),
          p (g (xs.get ⟨i, h1⟩) (ys.get ⟨i, h2⟩)) = true)
  | [], _ => by simp
  | _ :: _, [] => by simp
  | x :: xs, y :: ys => by
    simp only [List.zipWith_cons_cons, List.any_cons, Bool.or_eq_true,
      zipWith_any_iff g p xs ys]
    constructor
    · rintro (h | ⟨i, h1, h2, h⟩)
      · exact ⟨0, by simp, by simp, h⟩
      · exact ⟨i + 1, by simpa using Nat.succ_lt_succ h1,
          by simpa using Nat.succ_lt_succ h2, by simpa using h⟩
    · rintro ⟨i, h1, h2, h⟩
      cases i with
      | zero => exact Or.inl h
      | succ i =>
        exact Or.inr ⟨i, by simpa using h1, by simpa using h2, by simpa using h⟩

theorem msg_distinct :
    solveBracketMsg ≠ solveMaxMsg ∧ solveBracketMsg ≠ emptyReduceMsg ∧
      broadcastMsg ≠ solveDimMsg ∧ emptyReduceMsg ≠ i1MaxMsg ∧
      emptyReduceMsg ≠ solveMaxMsg := by
  refine ⟨?_, ?_, ?_, ?_, ?_⟩ <;> decide

theorem broadcast2_eq_len (xs ys : List ℚ) (h : xs.length = ys.length) :
    broadcast2 xs ys = some (xs, ys) := by
  unfold broadcast2
  rw [if_pos h]

theorem solveMain_eq_len (sq f : ℚ → ℚ) (tol : ℚ) (a b : List ℚ)
    (h : a.length = b.length) :
    solveMain sq f tol a b =
      if (List.zipWith (fun x y => f x * f y) a b).any (fun p => decide (0 ≤ p))
      then .error solveBracketMsg
      else solveRecurse sq f tol
        (List.zipWith (fun x y => ⟨x, f x, y, f y, false⟩) a b) 0 := by
  unfold solveMain
  rw [broadcast2_eq_len a b h]

theorem solveMain_error_msg (sq f : ℚ → ℚ) (tol : ℚ) (a b : List ℚ)
    (e : String) (h : solveMain sq f tol a b = .error e) :
    e = broadcastMsg ∨ e = solveBracketMsg ∨ e = solveMaxMsg ∨
      e = emptyReduceMsg := by
  unfold solveMain at h
  rcases hb : broadcast2 a b with _ | p
  · rw [hb] at h
    cases h
    exact Or.inl rfl
  · rw [hb] at h
    rcases p with ⟨a2, b2⟩
    by_cases hany : (List.zipWith (fun x y => f x * f y) a2 b2).any
        (fun p => decide (0 ≤ p))
    · simp only [hany, if_true] at h
      cases h
      exact Or.inr (Or.inl rfl)
    · simp only [hany, if_false, Bool.false_eq_true] at h
      rcases solveGo_error_msg sq f tol _ _ _ h with h1 | h1
      · exact Or.inr (Or.inr (Or.inl h1))
      · exact Or.inr (Or.inr (Or.inr h1))

/-- C1 (corrected, solve part): for `solve`, once a lane's convergence-mask
entry is true, the lane's bracket never changes again and the value the call
finally returns for that lane is exactly the midpoint it held at that moment;
see `claimC1_counterexample` for the failure of the claim on `integrate1`. -/
theorem claimC1 (sq f : ℚ → ℚ) (tol : ℚ) (st : List SLane) (j : ℕ)
    (v : List ℚ) (h : solveRecurse sq f tol st j = .ok v) (i : ℕ)
    (hs : i < st.length) (hv : i < v.length)
    (hc : (st.get ⟨i, hs⟩).conv = true) :
    v.get ⟨i, hv⟩ = slaneMid (st.get ⟨i, hs⟩) :=
  solveGo_frozenAux sq f tol _ st v h i hs hv hc

/-- C1 (counterexample to the claim as stated): in the `integrate1` run on
bounds `[0, 2]`, `[1, 3]` with `rtol = 0`, `atol = 1`, the first lane's mask
becomes true at depth 0 while that lane holds the value 0, yet the call
returns 16 for it: deeper recursion forced by the second lane re-assembles
the frozen lane's value from finer Simpson estimates. -/
theorem claimC1_counterexample :
    i1convNext cexF (max 0 tolFloor) (max 1 tolFloor) (i1init cexF 0 1)
        = true ∧
      i1current cexF (i1init cexF 0 1) = 0 ∧
      integrate1L cexF [0, 2] [1, 3] 0 1 = .ok [16, 1/4] ∧
      (16 : ℚ) ≠ 0 := by
  refine ⟨?_, ?_, ?_, by norm_num⟩ <;> with_unfolding_all rfl

/-- C1 witness: a one-lane run whose lane is already converged returns the
frozen midpoint. -/
theorem claimC1_witness :
    solveRecurse id id 1 [⟨0, 0, 1, 1, true⟩] 0 = .ok [1/2] ∧
      ([1/2] : List ℚ).get ⟨0, by norm_num⟩ =
        slaneMid (⟨0, 0, 1, 1, true⟩ : SLane) := by
  have hrun : solveRecurse id id 1 [⟨0, 0, 1, 1, true⟩] 0 = .ok [1/2] := by
    with_unfolding_all rfl
  exact ⟨hrun,
    claimC1 id id 1 [⟨0, 0, 1, 1, true⟩] 0 [1/2] hrun 0 (by norm_num)
      (by norm_num) rfl⟩

/-- C3 (corrected, solve part): a two-lane `solve` call that returns gives,
lane by lane, exactly the values the two one-lane calls return (bit-for-bit
in the model's exact arithmetic); see `claimC3_counterexample` for the
failure of the claim on `integrate1`. -/
theorem claimC3 (sq f : ℚ → ℚ) (tol : ℚ) (x1 x2 y1 y2 r1 r2 : ℚ)
    (h : solveMain sq f tol [x1, x2] [y1, y2] = .ok [r1, r2]) :
    solveMain sq f tol [x1] [y1] = .ok [r1] ∧
      solveMain sq f tol [x2] [y2] = .ok [r2] := by
  rw [solveMain_eq_len sq f tol _ _ (by simp)] at h
  by_cases hany : (List.zipWith (fun x y => f x * f y) [x1, x2] [y1, y2]).any
      (fun p => decide (0 ≤ p))
  · rw [if_pos hany] at h
    cases h
  · rw [if_neg hany] at h
    simp only [List.zipWith_cons_cons, List.zipWith_nil_right, List.any_cons,
      List.any_nil, Bool.or_eq_true, decide_eq_true_eq] at hany
    push_neg at hany
    unfold solveRecurse at h
    simp only [List.zipWith_cons_cons, List.zipWith_nil_right] at h
    rcases solveGo_pair sq f tol _ _ _ _ h with ⟨s1, s2, hv, h1, h2⟩
    have hv2 : r1 = s1 ∧ r2 = s2 := by simpa using hv
    rcases hv2 with ⟨rfl, rfl⟩
    constructor
    · rw [solveMain_eq_len sq f tol _ _ (by simp), if_neg ?hc1]
      case hc1 =>
        simp only [List.zipWith_cons_cons, List.zipWith_nil_right,
          List.any_cons, List.any_nil, Bool.or_false, decide_eq_true_eq]
        exact not_le.mpr hany.1
      unfold solveRecurse
      simpa using h1
    · rw [solveMain_eq_len sq f tol _ _ (by simp), if_neg ?hc2]
      case hc2 =>
        simp only [List.zipWith_cons_cons, List.zipWith_nil_right,
          List.any_cons, List.any_nil, Bool.or_false, decide_eq_true_eq]
        exact not_le.mpr hany.2.1
      unfold solveRecurse
      simpa using h2

/-- C3 (counterexample to the claim as stated): on `integrate1` with bounds
`[0, 2]`, `[1, 3]`, `rtol = 0`, `atol = 1`, the first lane gets 16 in the
two-lane run but 0 in its one-lane run — the difference 16 is neither zero
(bit-for-bit) nor within the requested tolerance `atol + rtol*|result| = 1`:
the sibling lane forces deeper subdivision which re-samples the first lane's
integrand at points the one-lane run never evaluates. -/
theorem claimC3_counterexample :
    integrate1L cexF [0, 2] [1, 3] 0 1 = .ok [16, 1/4] ∧
      integrate1L cexF [0] [1] 0 1 = .ok [0] ∧
      integrate1L cexF [2] [3] 0 1 = .ok [1/4] ∧
      (16 : ℚ) ≠ 0 ∧ ¬(|(16 : ℚ) - 0| ≤ 1 + 0 * |(16 : ℚ)|) := by
  refine ⟨?_, ?_, ?_, by norm_num, by norm_num⟩ <;> with_unfolding_all rfl

/-- C3 witness: a concrete two-lane `solve` run and the matching one-lane
runs. -/
theorem claimC3_witness :
    solveMain (fun _ => 0) id 10 [-1, -2] [1, 6] = .ok [0, 2] ∧
      solveMain (fun _ => 0) id 10 [-1] [1] = .ok [0] ∧
      solveMain (fun _ => 0) id 10 [-2] [6] = .ok [2] := by
  have hrun : solveMain (fun _ => 0) id 10 [-1, -2] [1, 6] = .ok [0, 2] := by
    with_unfolding_all rfl
  exact ⟨hrun,
    (claimC3 (fun _ => 0) id 10 (-1) (-2) 1 6 0 2 hrun).1,
    (claimC3 (fun _ => 0) id 10 (-1) (-2) 1 6 0 2 hrun).2⟩

theorem solveGo_conv_mid (sq f : ℚ → ℚ) (tol : ℚ) (k : ℕ) (st : List SLane)
    (v : List ℚ) (h : solveGo sq f tol k st = .ok v) (i : ℕ)
    (hs : i < st.length) (hv : i < v.length)
    (hc : (slaneConv tol (st.get ⟨i, hs⟩)).conv = true) :
    v.get ⟨i, hv⟩ = slaneMid (st.get ⟨i, hs⟩) := by
  cases k with
  | zero => simp [solveGo] at h
  | succ k =>
    rw [solveGo] at h
    by_cases he : (st.map (slaneConv tol)).isEmpty
    · simp [he] at h
    · simp only [he, if_false, Bool.false_eq_true] at h
      by_cases hall : (st.map (slaneConv tol)).all (fun l => l.conv)
      · simp only [hall, if_true] at h
        cases h
        simp only [List.get_eq_getElem, List.getElem_map]
        rw [slaneMid_slaneConv]
      · simp only [hall, if_false, Bool.false_eq_true] at h
        have hs2 : i < ((st.map (slaneConv tol)).map (slaneStep sq f)).length := by
          simpa using hs
        have hc2 :
            (((st.map (slaneConv tol)).map (slaneStep sq f)).get
              ⟨i, hs2⟩).conv = true := by
          simp only [List.get_eq_getElem, List.getElem_map]
          rw [slaneStep_conv]
          exact hc
        have := solveGo_frozenAux sq f tol k _ v h i hs2 hv hc2
        rw [this]
        simp only [List.get_eq_getElem, List.getElem_map]
        simp only [List.get_eq_getElem] at hc
        rw [slaneStep_of_conv sq f _ hc, slaneMid_slaneConv]

/-- C8 (confirmed): in `solve`, a lane's mask after an iteration's update is
true exactly when it was already true or the bracket width satisfies
`|b - a| < tol`; the lane value a returning call delivers for any lane whose
mask is set at that update is the midpoint `c = (a+b)/2` of its current
bracket (frozen thereafter). -/
theorem claimC8 :
    (∀ (tol : ℚ) (l : SLane),
      (slaneConv tol l).conv = (l.conv || decide (|l.b - l.a| < tol))) ∧
    (∀ (l : SLane), slaneMid l = (l.a + l.b) / 2) ∧
    (∀ (sq f : ℚ → ℚ) (tol : ℚ) (st : List SLane) (j : ℕ) (v : List ℚ),
      solveRecurse sq f tol st j = .ok v →
      ∀ (i : ℕ) (hs : i < st.length) (hv : i < v.length),
        (slaneConv tol (st.get ⟨i, hs⟩)).conv = true →
        v.get ⟨i, hv⟩ = slaneMid (st.get ⟨i, hs⟩)) := by
  refine ⟨fun tol l => rfl, fun l => slaneC_eq l, ?_⟩
  intro sq f tol st j v h i hs hv hc
  exact solveGo_conv_mid sq f tol _ st v h i hs hv hc

/-- C8 witness: a lane with bracket `[0, 1]` converges under `tol = 2` and
the returned value is the midpoint 1/2. -/
theorem claimC8_witness :
    (slaneConv 2 (⟨0, 0, 1, 1, false⟩ : SLane)).conv =
        ((false : Bool) || decide (|(1 : ℚ) - 0| < 2)) ∧
      slaneMid (⟨0, 0, 1, 1, false⟩ : SLane) = (0 + 1) / 2 ∧
      ([1/2] : List ℚ).get ⟨0, by norm_num⟩ =
        slaneMid (⟨0, 0, 1, 1, false⟩ : SLane) := by
  have hrun : solveRecurse id id 2 [⟨0, 0, 1, 1, false⟩] 0 = .ok [1/2] := by
    with_unfolding_all rfl
  refine ⟨claimC8.1 2 ⟨0, 0, 1, 1, false⟩, claimC8.2.1 _, ?_⟩
  exact claimC8.2.2 id id 2 [⟨0, 0, 1, 1, false⟩] 0 [1/2] hrun 0 (by norm_num)
    (by norm_num) (by with_unfolding_all rfl)

/-- C4 (confirmed): for same-length 1-d endpoint arrays, `solve` raises the
bracketing error if and only if some lane satisfies `f(a)*f(b) >= 0` (an
exact root at an endpoint included); the check depends only on the endpoint
values — it is decided before any Ridders iteration, which can only produce
the distinct non-convergence or empty-reduction errors, and no value is
returned with the error. -/
theorem claimC4 (sq f : ℚ → ℚ) (tol : ℚ) (a b : List ℚ)
    (hlen : a.length = b.length) :
    solveMain sq f tol a b = .error solveBracketMsg ↔
      ∃ (i : ℕ) (h1 : i < a.length) (h2 : i < b.length),
        0 ≤ f (a.get ⟨i, h1⟩) * f (b.get ⟨i, h2⟩) := by
  rw [solveMain_eq_len sq f tol a b hlen]
  by_cases hany : (List.zipWith (fun x y => f x * f y) a b).any
      (fun p => decide (0 ≤ p))
  · rw [if_pos hany]
    simp only [true_iff]
    rcases (zipWith_any_iff (fun x y => f x * f y)
      (fun p => decide (0 ≤ p)) a b).mp hany with ⟨i, h1, h2, hp⟩
    exact ⟨i, h1, h2, of_decide_eq_true hp⟩
  · rw [if_neg hany]
    constructor
    · intro h
      exfalso
      rcases solveGo_error_msg sq f tol _ _ _ h with h1 | h1 <;>
        revert h1 <;> decide
    · rintro ⟨i, h1, h2, hp⟩
      exfalso
      exact hany ((zipWith_any_iff (fun x y => f x * f y)
        (fun p => decide (0 ≤ p)) a b).mpr ⟨i, h1, h2, decide_eq_true hp⟩)

/-- C4 witness: `f(x) = x + 2` on `[0, 1]` has no sign change and the call
raises the bracketing error; `f(x) = x` on `[0, 1]` has an exact root at the
endpoint and is rejected as well. -/
theorem claimC4_witness :
    solveMain id (fun x => x + 2) (1/1000000) [0] [1] =
        .error solveBracketMsg ∧
      solveMain id id (1/1000000) [0] [1] = .error solveBracketMsg :=
  ⟨(claimC4 id (fun x => x + 2) (1/1000000) [0] [1] rfl).mpr
      ⟨0, by norm_num, by norm_num, by norm_num⟩,
    (claimC4 id id (1/1000000) [0] [1] rfl).mpr
      ⟨0, by norm_num, by norm_num, by norm_num⟩⟩

/-- C7 (corrected): on nonempty problem arrays both engines always terminate
with either a full-length result array or their dedicated non-convergence
error — `integrate1.recurse` raises `IntegrationError` as soon as its depth
counter exceeds 50 and `solve.recurse` raises `SolverError` as soon as its
iteration counter exceeds 1000, in both cases for the whole call with no
value attached; see `claimC7_counterexample` for the empty-array calls that
fail differently. -/
theorem claimC7 :
    (∀ (f : ℚ → ℚ) (st : List I1Lane) (rtol atol : ℚ) (j : ℕ), 50 < j →
      i1recurse f st rtol atol j = .error i1MaxMsg) ∧
    (∀ (f : ℚ → ℚ) (k : ℕ) (st : List I1Lane) (rtol atol : ℚ), st ≠ [] →
      (∃ v, i1go f k st rtol atol = .ok v ∧ v.length = st.length) ∨
        i1go f k st rtol atol = .error i1MaxMsg) ∧
    (∀ (sq f : ℚ → ℚ) (tol : ℚ) (st : List SLane) (j : ℕ), 1000 < j →
      solveRecurse sq f tol st j = .error solveMaxMsg) ∧
    (∀ (sq f : ℚ → ℚ) (tol : ℚ) (k : ℕ) (st : List SLane), st ≠ [] →
      (∃ v, solveGo sq f tol k st = .ok v ∧ v.length = st.length) ∨
        solveGo sq f tol k st = .error solveMaxMsg) := by
  refine ⟨?_, ?_, ?_, ?_⟩
  · intro f st rtol atol j hj
    unfold i1recurse
    rw [show 51 - j = 0 by omega, i1go]
  · intro f k st rtol atol hne
    exact i1go_total f k st rtol atol hne
  · intro sq f tol st j hj
    unfold solveRecurse
    rw [show 1001 - j = 0 by omega, solveGo]
  · intro sq f tol k st hne
    exact solveGo_total sq f tol k st hne

/-- C7 (counterexample to the claim as stated): on empty problem arrays both
calls terminate with numpy's zero-size-reduction error, which is neither a
returned array nor the dedicated non-convergence error. -/
theorem claimC7_counterexample :
    integrate1L id [] [] 1 1 = .error emptyReduceMsg ∧
      solveMain id id 1 [] [] = .error emptyReduceMsg ∧
      emptyReduceMsg ≠ i1MaxMsg ∧ emptyReduceMsg ≠ solveMaxMsg := by
  exact ⟨by with_unfolding_all rfl, by with_unfolding_all rfl,
    by decide, by decide⟩

/-- C7 witness: the bound errors fire at counters 51 and 1001, and the
totality alternatives hold on concrete one-lane states. -/
theorem claimC7_witness :
    i1recurse id [i1init id 0 1] 1 1 51 = .error i1MaxMsg ∧
      solveRecurse id id 1 [⟨0, 0, 1, 1, false⟩] 1001 = .error solveMaxMsg ∧
      ((∃ v, i1go id 51 [i1init id 0 1] 1 1 = .ok v ∧ v.length = 1) ∨
        i1go id 51 [i1init id 0 1] 1 1 = .error i1MaxMsg) ∧
      ((∃ v, solveGo id id 1 1001 [⟨0, 0, 1, 1, false⟩] = .ok v ∧
          v.length = 1) ∨
        solveGo id id 1 1001 [⟨0, 0, 1, 1, false⟩] = .error solveMaxMsg) := by
  refine ⟨claimC7.1 id [i1init id 0 1] 1 1 51 (by norm_num),
    claimC7.2.2.1 id id 1 [⟨0, 0, 1, 1, false⟩] 1001 (by norm_num), ?_, ?_⟩
  · have := claimC7.2.1 id 51 [i1init id 0 1] 1 1 (by simp)
    simpa using this
  · have := claimC7.2.2.2 id id 1 1001 [⟨0, 0, 1, 1, false⟩] (by simp)
    simpa using this

/-- C2 (confirmed): the tolerance pair used by the convergence test of
`integrate1.recurse` at depth `j` is the caller's pair halved once per level
and floored at `1e-8` — the floored value of the chain equals
`max(rtol / 2^j, 1e-8)` — and, by the unfolding equation of the recursion, a
level that does recurse passes exactly the same halved floored pair to its
left and to its right sub-call. -/
theorem claimC2 :
    tolFloor = 1e-8 ∧
    (∀ (r : ℚ) (j : ℕ),
      max (i1tolChain r j) tolFloor = max (r / 2 ^ j) tolFloor) ∧
    (∀ (f : ℚ → ℚ) (st : List I1Lane) (rtol atol : ℚ) (j : ℕ),
      j ≤ 50 → st.isEmpty = false →
      ¬ st.all (fun l =>
        i1convNext f (max rtol tolFloor) (max atol tolFloor) l) = true →
      i1recurse f st rtol atol j =
        match i1recurse f
            (st.map (i1childL f (max rtol tolFloor) (max atol tolFloor)))
            (max rtol tolFloor / 2) (max atol tolFloor / 2) (j + 1) with
        | .error e => .error e
        | .ok outL =>
          match i1recurse f
              (st.map (i1childR f (max rtol tolFloor) (max atol tolFloor)))
              (max rtol tolFloor / 2) (max atol tolFloor / 2) (j + 1) with
          | .error e => .error e
          | .ok outR => .ok (List.zipWith (· + ·) outL outR)) := by
  refine ⟨rfl, fun r j => i1tolChain_used r j, ?_⟩
  intro f st rtol atol j hj hne hnc
  exact i1recurse_unfold f st rtol atol j hj hne hnc

/-- C2 witness: the chain identity at `rtol = 1/2`, depth 3, and the
unfolding equation applied to a concrete unconverged one-lane state, chained
with evaluation of both sides. -/
theorem claimC2_witness :
    max (i1tolChain (1/2) 3) tolFloor = max ((1/2) / 2 ^ 3) tolFloor ∧
      i1recurse cexF [i1init cexF 2 3] 0 1 0 = .ok [1/4] := by
  refine ⟨claimC2.2.1 (1/2) 3, ?_⟩
  exact (claimC2.2.2 cexF [i1init cexF 2 3] 0 1 0 (by norm_num)
      (by with_unfolding_all rfl) (by with_unfolding_all decide)).trans
    (by with_unfolding_all rfl)

/-- C5 (corrected): at any unconverged lane whose bracket still carries a
strict sign change `fa*fb < 0`, the radicand `fc*fc - fa*fb` is strictly
positive (so the square root is well defined there), and — provided the
iteration's two new evaluations `f(c)` and `f(d)` are both nonzero — the
bracket selected for the next iteration again satisfies the strict sign
change. When an evaluation hits an exact root the strict property is lost;
see `claimC5_counterexample`. -/
theorem claimC5 (sq f : ℚ → ℚ) (l : SLane) (hconv : l.conv = false)
    (hsign : l.fa * l.fb < 0) :
    0 < slaneRad f l ∧
      (slaneFc f l ≠ 0 → f (slaneD sq f l) ≠ 0 →
        (slaneStep sq f l).fa * (slaneStep sq f l).fb < 0) := by
  constructor
  · unfold slaneRad
    nlinarith [mul_self_nonneg (slaneFc f l)]
  · intro hfc hfd
    unfold slaneStep
    simp only [hconv, Bool.false_eq_true, if_false]
    split_ifs with h1 h2
    · exact h1
    · exact h2
    · push_neg at h1 h2
      have hfa0 : l.fa ≠ 0 := by
        intro hcon
        rw [hcon, zero_mul] at hsign
        exact absurd hsign (lt_irrefl 0)
      have h3 : 0 < l.fa * f (slaneD sq f l) := by
        rcases lt_or_eq_of_le h2 with h | h
        · exact h
        · exact absurd h.symm (mul_ne_zero hfa0 hfd)
      by_contra hcon
      push_neg at hcon
      nlinarith [mul_neg_of_pos_of_neg h3 hsign,
        mul_nonneg (mul_self_nonneg l.fa) hcon]

set_option maxRecDepth 8000 in
/-- C5 (counterexample to the claim as stated): `f(x) = x^3 - x` on the
bracket `[-2, 2]` satisfies the precondition (`fa*fb = -36 < 0`), the first
iteration's square root is exact (`radicand 36, root 6`), yet the midpoint
`c = 0` is an exact root, the selected next bracket is `[0, 2]` with
`fa*fb = 0` — the strict sign change is not preserved — and the next
iteration's radicand is 0, not strictly positive. -/
theorem claimC5_counterexample :
    c5L0.fa * c5L0.fb < 0 ∧
      c5L0.fa = c5F c5L0.a ∧ c5L0.fb = c5F c5L0.b ∧
      slaneRad c5F (slaneConv (1/100) c5L0) = 36 ∧
      c5Sqrt 36 * c5Sqrt 36 = 36 ∧ (0 : ℚ) ≤ c5Sqrt 36 ∧
      slaneStep c5Sqrt c5F (slaneConv (1/100) c5L0) = ⟨0, 0, 2, 6, false⟩ ∧
      ¬((slaneStep c5Sqrt c5F (slaneConv (1/100) c5L0)).fa *
          (slaneStep c5Sqrt c5F (slaneConv (1/100) c5L0)).fb < 0) ∧
      ¬(0 < slaneRad c5F (slaneStep c5Sqrt c5F (slaneConv (1/100) c5L0))) := by
  with_unfolding_all decide

set_option maxRecDepth 8000 in
/-- C5 witness: `f(x) = x^2 - 2x` on the bracket `[1/2, 3]` with the exact
root of the radicand `625/256`: neither new evaluation vanishes and the next
bracket keeps the strict sign change. -/
theorem claimC5_witness :
    0 < slaneRad c5wF c5wL ∧
      (slaneStep c5wSqrt c5wF c5wL).fa * (slaneStep c5wSqrt c5wF c5wL).fb
        < 0 := by
  have h := claimC5 c5wSqrt c5wF c5wL (by with_unfolding_all rfl)
    (by with_unfolding_all decide)
  exact ⟨h.1, h.2 (by with_unfolding_all decide) (by with_unfolding_all decide)⟩

/-- C10 (confirmed, in exact arithmetic): where the square root is exact,
Ridders' correction satisfies `|delta| <= c - a` (because the root of the
radicand dominates `|fc|` once `fa*fb <= 0`), so the candidate `d` lies
inside the current bracket; consequently, for a run whose reached radicands
have exact roots, every lane's bracket stays nested in that lane's initial
bracket and the value returned for each lane lies within the caller's
original interval. -/
theorem claimC10 :
    (∀ (sq f : ℚ → ℚ) (l : SLane), l.a ≤ l.b → l.fa * l.fb ≤ 0 →
      (sq (slaneRad f l) * sq (slaneRad f l) = slaneRad f l ∧
        0 ≤ sq (slaneRad f l)) →
      |slaneDelta sq f l| ≤ slaneC l - l.a ∧
        l.a ≤ slaneD sq f l ∧ slaneD sq f l ≤ l.b) ∧
    (∀ (sq f : ℚ → ℚ) (tol : ℚ) (st : List SLane) (j : ℕ) (v : List ℚ),
      (∀ l ∈ st, l.fa = f l.a ∧ l.fb = f l.b) →
      (∀ l ∈ st, l.fa * l.fb ≤ 0) →
      (∀ s ∈ solveStates sq f tol (1001 - j) st, ∀ l ∈ s, l.conv = false →
        0 ≤ slaneRad f l →
          sq (slaneRad f l) * sq (slaneRad f l) = slaneRad f l ∧
            0 ≤ sq (slaneRad f l)) →
      solveRecurse sq f tol st j = .ok v →
      ∀ (i : ℕ) (hs : i < st.length) (hv : i < v.length),
        min (st.get ⟨i, hs⟩).a (st.get ⟨i, hs⟩).b ≤ v.get ⟨i, hv⟩ ∧
          v.get ⟨i, hv⟩ ≤ max (st.get ⟨i, hs⟩).a (st.get ⟨i, hs⟩).b) := by
  constructor
  · intro sq f l hab hsign hsq
    have hd := slaneDelta_bound sq f l hsign (fun _ => hsq)
    have hca : (0 : ℚ) ≤ slaneC l - l.a := by
      rw [slaneC_eq]; linarith
    have hbetween := slaneD_between sq f l hsign (fun _ => hsq)
    rw [min_eq_left hab, max_eq_right hab] at hbetween
    rw [abs_of_nonneg hca] at hd
    exact ⟨hd, hbetween⟩
  · intro sq f tol st j v hcoh hsign hsq h i hs hv
    exact solveGo_nested sq f tol (1001 - j) st v hcoh hsign hsq h i hs hv

set_option maxRecDepth 8000 in
/-- C10 witness: the step bound on the bracket `[1/2, 3]` of
`f(x) = x^2 - 2x` (exact radicand root `25/16`), and a converging one-lane
run from `[-1, 1]` whose result 0 lies within the original interval. -/
theorem claimC10_witness :
    (|slaneDelta c5wSqrt c5wF c5wL| ≤ slaneC c5wL - c5wL.a ∧
      c5wL.a ≤ slaneD c5wSqrt c5wF c5wL ∧ slaneD c5wSqrt c5wF c5wL ≤ c5wL.b) ∧
      (min (-1 : ℚ) 1 ≤ ([0] : List ℚ).get ⟨0, by norm_num⟩ ∧
        ([0] : List ℚ).get ⟨0, by norm_num⟩ ≤ max (-1 : ℚ) 1) := by
  constructor
  · exact claimC10.1 c5wSqrt c5wF c5wL (by with_unfolding_all decide)
      (by with_unfolding_all decide) (by with_unfolding_all decide)
  · exact claimC10.2 (fun _ => 0) id 3 [⟨-1, -1, 1, 1, false⟩] 0 [0]
      (by intro l hl
          simp only [List.mem_singleton] at hl
          subst hl
          exact ⟨rfl, rfl⟩)
      (by intro l hl
          simp only [List.mem_singleton] at hl
          subst hl
          norm_num)
      (by intro s hsm
          have : solveStates (fun _ => 0) id 3 (1001 - 0)
              [⟨-1, -1, 1, 1, false⟩] = [] := by with_unfolding_all rfl
          rw [this] at hsm
          cases hsm)
      (by with_unfolding_all rfl) 0 (by norm_num) (by norm_num)

theorem broadcast2_isSome_of_compat (xs ys : List ℚ)
    (h : xs.length = ys.length ∨ xs.length = 1 ∨ ys.length = 1) :
    ∃ p, broadcast2 xs ys = some p := by
  unfold broadcast2
  rcases h with h | h | h
  · rw [if_pos h]; exact ⟨_, rfl⟩
  · by_cases heq : xs.length = ys.length
    · rw [if_pos heq]; exact ⟨_, rfl⟩
    · rw [if_neg heq, if_pos h]; exact ⟨_, rfl⟩
  · by_cases heq : xs.length = ys.length
    · rw [if_pos heq]; exact ⟨_, rfl⟩
    · by_cases h1 : xs.length = 1
      · rw [if_neg heq, if_pos h1]; exact ⟨_, rfl⟩
      · rw [if_neg heq, if_neg h1, if_pos h]; exact ⟨_, rfl⟩

/-- C6 (confirmed): every `integrate2` call on shape-compatible bounds (the
dimension check and broadcasting succeed) returns — it never raises on
non-convergence — and its result is exactly the Kronrod estimate together
with the claimed warning: the vector-variant message when the error is
array-valued and some lane's `|Ig - Ik|` exceeds `eps`, the scalar-variant
message when the scalar error exceeds `eps`, and no warning otherwise. -/
theorem claimC6 (R : GKRule) (f : ℚ → ℚ) (eps : ℚ) (a b : NArr)
    (hcompat : i2compat a b)
    (_hrule : R.wk.length = R.node.length ∧
      R.wg.length = (oddInterior R.node).length) :
    integrate2A R f eps a b = .ok (i2IkSpec R f a b, i2warnSpec R f eps a b) := by
  rcases a with x | xs <;> rcases b with y | ys
  · rfl
  · simp only [integrate2A, i2IkSpec, i2warnSpec, List.map_map]
    rfl
  · simp only [integrate2A, i2IkSpec, i2warnSpec, List.map_map]
    rfl
  · rcases broadcast2_isSome_of_compat xs ys (by simpa [i2compat] using hcompat)
      with ⟨⟨xs2, ys2⟩, hp⟩
    simp only [integrate2A, i2IkSpec, i2warnSpec, hp, List.map_zipWith]

/-- C6 witness: a scalar call whose error exceeds `eps = 1`, returning the
Kronrod estimate 11/4 together with the scalar-variant warning. -/
theorem claimC6_witness :
    integrate2A wRule id 1 (.scl 0) (.scl 1) =
      .ok (.scl (11/4), some i2WarnSclMsg) :=
  (claimC6 wRule id 1 (.scl 0) (.scl 1) trivial
      (by constructor <;> with_unfolding_all rfl)).trans
    (by with_unfolding_all rfl)

/-- C9 (corrected): `solve` raises its dimension-mismatch error exactly when
`np.ndim(a) != np.ndim(b)` (and then independently of `f`, which is never
evaluated); two 1-d arrays of different lengths pass that check and fail
later, inside the elementwise arithmetic, with numpy's distinct broadcast
error. `integrate2` on 0-d/1-d inputs can only fail with the broadcast
error — its dimension-mismatch branch concerns higher-dimensional inputs of
unequal `ndim` only. See `claimC9_counterexample`. -/
theorem claimC9 :
    (∀ (sq f : ℚ → ℚ) (tol : ℚ) (a b : NArr),
      solveA sq f tol a b = .error solveDimMsg ↔ a.ndim ≠ b.ndim) ∧
    (∀ (R : GKRule) (f : ℚ → ℚ) (eps : ℚ) (a b : NArr) (e : String),
      integrate2A R f eps a b = .error e → e = broadcastMsg) := by
  constructor
  · intro sq f tol a b
    rcases a with x | xs <;> rcases b with y | ys
    · simp only [solveA, NArr.ndim, ne_eq, not_true_eq_false, iff_false]
      intro h
      rcases hm : solveMain sq f tol [x] [y] with e | v
      · rw [hm] at h
        have he : e = solveDimMsg := by simpa [Except.map] using h
        rcases solveMain_error_msg sq f tol _ _ _ hm with h1 | h1 | h1 | h1 <;>
          (rw [h1] at he; revert he; decide)
      · rw [hm] at h
        simp [Except.map] at h
    · simp [solveA, NArr.ndim]
    · simp [solveA, NArr.ndim]
    · simp only [solveA, NArr.ndim, ne_eq, not_true_eq_false, iff_false]
      intro h
      rcases hm : solveMain sq f tol xs ys with e | v
      · rw [hm] at h
        have he : e = solveDimMsg := by simpa [Except.map] using h
        rcases solveMain_error_msg sq f tol _ _ _ hm with h1 | h1 | h1 | h1 <;>
          (rw [h1] at he; revert he; decide)
      · rw [hm] at h
        simp [Except.map] at h
  · intro R f eps a b e h
    rcases a with x | xs <;> rcases b with y | ys
    · simp [integrate2A] at h
    · simp [integrate2A] at h
    · simp [integrate2A] at h
    · simp only [integrate2A] at h
      rcases hb : broadcast2 xs ys with _ | p
      · rw [hb] at h
        exact (Except.error.inj h).symm
      · rcases p with ⟨xs2, ys2⟩
        rw [hb] at h
        simp at h

/-- C9 (counterexample to the claim as stated): the 1-d arrays `[0, 1]` and
`[0, 1, 2]` have different shapes, yet neither `solve` nor `integrate2`
raises the promised dimension-mismatch error — both fail later with the
distinct broadcast error (for `solve`, after `f` has already been evaluated
on both endpoint arrays). -/
theorem claimC9_counterexample :
    ([0, 1] : List ℚ).length ≠ ([0, 1, 2] : List ℚ).length ∧
      solveA id id 1 (.vec [0, 1]) (.vec [0, 1, 2]) = .error broadcastMsg ∧
      broadcastMsg ≠ solveDimMsg ∧
      integrate2A wRule id 1 (.vec [0, 1]) (.vec [0, 1, 2]) =
        .error broadcastMsg := by
  refine ⟨by decide, by with_unfolding_all rfl, by decide,
    by with_unfolding_all rfl⟩

/-- C9 witness: a scalar paired with a 1-d array has mismatched `ndim` and
draws the dimension error; the broadcast-failure conclusion instantiated on
the mismatched-length pair. -/
theorem claimC9_witness :
    solveA id id 1 (.scl 0) (.vec [1, 2]) = .error solveDimMsg ∧
      broadcastMsg = broadcastMsg := by
  refine ⟨(claimC9.1 id id 1 (.scl 0) (.vec [1, 2])).mpr (by decide), ?_⟩
  exact claimC9.2 wRule id 1 (.vec [0, 1]) (.vec [0, 1, 2]) broadcastMsg
    (by with_unfolding_all rfl)
